import Mathlib

/-!
Verification of `src/update-versions.py`.

The program has two components:

* `get_latest_tag` (lines 17-74): a paginated Docker-Hub tag fetch followed by
  a semantic-version selection over the accumulated digit-bearing tag names.
* `update_config_files` (lines 76-120): a walk over `config.yaml` files that
  rewrites the `version` field with the resolved tag and tallies
  `(updated_count, error_count)`.

The embedding below models the pure selection logic and the pagination loop
directly from the source.  External collaborators are modelled as data:

* registry responses become a function `Nat → FetchResult` giving the outcome
  of the i-th HTTP GET (transport failure, a response body of an unexpected
  shape, or a page of tag names plus a next-page flag);
* `packaging.version.parse` (third-party library, not part of this
  repository) is modelled by `parseVersion` following the grammar the spec
  describes (optional `v` prefix, dotted numeric release, optional
  pre-release); strings outside this grammar yield `none`, standing for
  `LegacyVersion` results, which line 60 of the source discards.  The
  precedence key `verKey` mirrors the comparison key of `packaging`
  (trailing zeros of the release stripped, absent pre-release sorting after
  any present one);
* the file system becomes a list of `ConfigFile` records carrying raw bytes
  plus the outcome of `yaml.safe_load` on them; `yaml.dump` is modelled by
  the order-preserving serializer `yamlDump`.
-/

/-- Models line 38 of the source: `any(char.isdigit() for char in tag['name'])`
(ASCII digits). -/
def hasDigit (t : String) : Bool := t.data.any Char.isDigit

/-- Semantic version as used by the program: a dotted numeric release plus an
optional pre-release `(phase, number)` with phase `0 = a`, `1 = b`, `2 = rc`. -/
structure PyVersion where
  release : List Nat
  pre : Option (Nat × Nat)
deriving Repr, DecidableEq

/-- Numeric value of a digit run. -/
def natOfDigits (ds : List Char) : Nat :=
  ds.foldl (fun a c => a * 10 + (c.toNat - 48)) 0

/-- Consume a maximal nonempty digit run. -/
def takeNat (cs : List Char) : Option (Nat × List Char) :=
  let ds := cs.takeWhile Char.isDigit
  if ds.isEmpty then none
  else some (natOfDigits ds, cs.dropWhile Char.isDigit)

/-- Consume further `.N` release components (greedy, a dot is consumed only
when digits follow).  The fuel is the length of the input, always enough. -/
def releaseRest : Nat → List Char → List Nat × List Char
  | 0, cs => ([], cs)
  | fuel + 1, cs =>
    match cs with
    | '.' :: cs' =>
      match takeNat cs' with
      | some (n, rest) =>
        let r := releaseRest fuel rest
        (n :: r.1, r.2)
      | none => ([], cs)
    | _ => ([], cs)

/-- Pre-release phase word (longest match first), as accepted by the PEP 440
grammar: `a`/`alpha` are phase 0, `b`/`beta` phase 1, `c`/`rc`/`pre`/`preview`
phase 2. -/
def preTagOf : List Char → Option (Nat × List Char)
  | 'a' :: 'l' :: 'p' :: 'h' :: 'a' :: r => some (0, r)
  | 'b' :: 'e' :: 't' :: 'a' :: r => some (1, r)
  | 'p' :: 'r' :: 'e' :: 'v' :: 'i' :: 'e' :: 'w' :: r => some (2, r)
  | 'p' :: 'r' :: 'e' :: r => some (2, r)
  | 'r' :: 'c' :: r => some (2, r)
  | 'a' :: r => some (0, r)
  | 'b' :: r => some (1, r)
  | 'c' :: r => some (2, r)
  | _ => none

/-- Separator characters the pre-release segment may carry on either side. -/
def isSep (c : Char) : Bool := c = '-' || c = '_' || c = '.'

/-- Parse the optional pre-release segment: `[-_.]? phase [-_.]? digits?`.
Returns the segment (or `none` when absent) and the unconsumed rest. -/
def parsePre (cs : List Char) : Option (Option (Nat × Nat) × List Char) :=
  match cs with
  | [] => some (none, [])
  | c :: r =>
    let cs1 := if isSep c then r else c :: r
    match preTagOf cs1 with
    | none => none
    | some (ph, cs2) =>
      let cs3 := match cs2 with
                 | c2 :: r2 => if isSep c2 then r2 else c2 :: r2
                 | [] => []
      match takeNat cs3 with
      | some (n, rest) => some (some (ph, n), rest)
      | none => some (some (ph, 0), cs3)

/-- Modelled from the spec: the semantic-version parser (the external
`packaging.version.parse` of line 59, not part of this repository).  Accepts
`v? N(.N)* pre?` after lowercasing, the grammar the spec describes for a
(non-legacy) semantic version; `none` corresponds to strings that only parse
as `LegacyVersion`, which line 60 of the source filters out.  The PEP 440
epoch, post, dev and local segments are outside the modelled subset. -/
def parseVersion (s : String) : Option PyVersion :=
  let cs0 := s.data.map Char.toLower
  let cs := match cs0 with
            | 'v' :: r => r
            | _ => cs0
  match takeNat cs with
  | none => none
  | some (n, rest) =>
    let rr := releaseRest rest.length rest
    match parsePre rr.2 with
    | some (pre, []) => some ⟨n :: rr.1, pre⟩
    | _ => none

/-- Release list with trailing zeros removed, as in the comparison key of
`packaging` (so `1.0` and `1.0.0` compare equal). -/
def stripZeros (l : List Nat) : List Nat :=
  (l.reverse.dropWhile (· = 0)).reverse

/-- Comparison key of a parsed version: lexicographically the stripped
release, then a flag putting an absent pre-release above any present one,
then the pre-release phase and number. -/
def verKey (v : PyVersion) : Lex (List Nat × Lex (Nat × Lex (Nat × Nat))) :=
  toLex (stripZeros v.release,
    toLex ((match v.pre with | none => 1 | some _ => 0),
      toLex ((match v.pre with | none => 0 | some (p, _) => p),
        (match v.pre with | none => 0 | some (_, n) => n))))

/-- Precedence order on parsed versions (the order `packaging` gives
`Version` objects, restricted to the modelled subset). -/
def verLe (a b : PyVersion) : Prop := verKey a ≤ verKey b

instance : DecidableRel verLe :=
  fun a b => inferInstanceAs (Decidable (verKey a ≤ verKey b))

/-- Models lines 56-63 of the source: keep the tags that parse as non-legacy
versions, paired as `(parsed_version, tag)`. -/
def taggedVersions (tags : List String) : List (PyVersion × String) :=
  tags.filterMap fun t => (parseVersion t).map fun v => (v, t)

/-- Sort key of a `(parsed_version, tag)` pair: Python compares such tuples
by the version first and the raw tag string (code points) as tie-break. -/
def pairKey (p : PyVersion × String) :
    Lex (Lex (List Nat × Lex (Nat × Lex (Nat × Nat))) × List Char) :=
  toLex (verKey p.1, p.2.data)

/-- Descending order on pairs, as produced by `valid_tags.sort(reverse=True)`
on line 66. -/
def pairDesc (p q : PyVersion × String) : Prop := pairKey q ≤ pairKey p

instance : DecidableRel pairDesc :=
  fun p q => inferInstanceAs (Decidable (pairKey q ≤ pairKey p))

instance : IsTotal (PyVersion × String) pairDesc :=
  ⟨fun p q => (le_total (pairKey p) (pairKey q)).symm⟩

instance : IsTrans (PyVersion × String) pairDesc :=
  ⟨fun _ _ _ h1 h2 => le_trans h2 h1⟩

/-- Descending code-point order on raw tag strings, as produced by
`sorted(all_tags, reverse=True)` on line 71. -/
def strDesc (a b : String) : Prop := b.data ≤ a.data

instance : DecidableRel strDesc :=
  fun a b => inferInstanceAs (Decidable (b.data ≤ a.data))

instance : IsTotal String strDesc := ⟨fun a b => (le_total a.data b.data).symm⟩

instance : IsTrans String strDesc := ⟨fun _ _ _ h1 h2 => le_trans h2 h1⟩

/-- Models lines 53-71 of the source, applied to the accumulated `all_tags`:
sort the `(parsed_version, tag)` pairs descending and return the tag of the
first one; if no tag parsed, fall back to a descending string sort of the raw
tags; an empty list yields `None`. -/
def selectLatest (allTags : List String) : Option String :=
  match List.insertionSort pairDesc (taggedVersions allTags) with
  | p :: _ => some p.2
  | [] =>
    match List.insertionSort strDesc allTags with
    | t :: _ => some t
    | [] => none

example : selectLatest ["1.0.0", "1.2.0"] = some "1.2.0" := by decide
example : selectLatest ["9", "10"] = some "10" := by decide
example : selectLatest ["a9", "a10"] = some "a9" := by decide
example : selectLatest ["1.0", "1.0.0"] = some "1.0.0" := by decide
example : selectLatest [] = none := by decide
example : parseVersion "v1.2.3-rc.2" = some ⟨[1, 2, 3], some (2, 2)⟩ := by decide
example : parseVersion "1.0.0-alpine" = none := by decide
example : verLe ⟨[1, 2, 0], none⟩ ⟨[1, 10], none⟩ := by decide
example : verLe ⟨[1, 0, 1], some (2, 1)⟩ ⟨[1, 0, 1], none⟩ := by decide

/-! ## The pagination loop (lines 26-49) -/

/-- Outcome of one registry GET (line 32-34).  `transportErr` is a
`requests.RequestException`, which covers network errors, the
`raise_for_status` of line 33 and (for requests >= 2.27) JSON decoding
failures; `badShape` is a body that is valid JSON but not of the shape
`{results: [{name: str}, ...], next: url?}`, on which lines 37-41 raise an
uncaught `AttributeError`/`KeyError`/`TypeError`; `ok names next` is a
well-shaped page with its tag names and whether a truthy next-page URL is
present. -/
inductive FetchResult where
  | transportErr
  | badShape
  | ok (names : List String) (next : Bool)
deriving Repr, DecidableEq

/-- State of the while loop of lines 27-46: truthiness of `tags_url`,
`current_page`, `max_pages` and the accumulated `all_tags`. -/
structure LoopState where
  hasNext : Bool
  currentPage : Nat
  maxPages : Nat
  allTags : List String
deriving Repr, DecidableEq

/-- Initial loop state (lines 23-28): the first page URL is present,
`current_page = 0`, `max_pages = 1`, no tags yet. -/
def initState : LoopState := ⟨true, 0, 1, []⟩

/-- Loop guard of line 30: `while tags_url and current_page < max_pages`. -/
def loopActive (s : LoopState) : Bool :=
  s.hasNext && decide (s.currentPage < s.maxPages)

/-- How the loop ends.  `fuelOut` is a modelling artifact for runs exceeding
the step budget (the loop itself has none). -/
inductive LoopOutcome where
  | fuelOut (s : LoopState)
  | raised
  | earlyNone
  | done (tags : List String)
deriving Repr, DecidableEq

/-- Models the while loop of lines 30-49, fetching page `s.currentPage` from
the response sequence `r` each iteration: on `RequestException` return `None`
(line 49), on a shape-malformed body the exception escapes, otherwise extend
`all_tags` with the digit-bearing names (line 38), advance `tags_url` and
`current_page` (lines 41-42) and grow `max_pages` by one when fewer than 5
tags are accumulated and a next page exists (lines 45-46). -/
def runPages (r : Nat → FetchResult) : Nat → LoopState → LoopOutcome
  | 0, s => if loopActive s then .fuelOut s else .done s.allTags
  | fuel + 1, s =>
    if loopActive s then
      match r s.currentPage with
      | .transportErr => .earlyNone
      | .badShape => .raised
      | .ok names next =>
        let tags := s.allTags ++ names.filter hasDigit
        runPages r fuel
          { hasNext := next,
            currentPage := s.currentPage + 1,
            maxPages := if tags.length < 5 && next then s.maxPages + 1
                        else s.maxPages,
            allTags := tags }
    else .done s.allTags

instance : DecidableEq (Except Unit (Option String)) := fun a b =>
  match a, b with
  | .error (), .error () => isTrue rfl
  | .ok x, .ok y =>
    if h : x = y then isTrue (by rw [h]) else isFalse (by simp [h])
  | .error _, .ok _ => isFalse (by simp)
  | .ok _, .error _ => isFalse (by simp)

/-- Models `get_latest_tag` (lines 17-74) over a registry response sequence:
run the pagination loop, then the selection of lines 53-74.  `none` is the
fuel artifact; `some (.error ())` marks a Python exception escaping
`get_latest_tag`; `some (.ok x)` is a normal return of `x`. -/
def get_latest_tag (r : Nat → FetchResult) (fuel : Nat) :
    Option (Except Unit (Option String)) :=
  match runPages r fuel initState with
  | .fuelOut _ => none
  | .raised => some (.error ())
  | .earlyNone => some (.ok none)
  | .done tags => some (.ok (selectLatest tags))

/-- A response at which the loop necessarily stops paging: a failure, a
malformed body, or a page without a next-page pointer. -/
def isStopper : FetchResult → Bool
  | .ok _ true => false
  | _ => true

/-- Digit-bearing names contributed by one response. -/
def pageTags : FetchResult → List String
  | .ok names _ => names.filter hasDigit
  | _ => []

/-- Total number of digit-bearing candidates contributed by pages
`0, ..., n-1`. -/
def candCount (r : Nat → FetchResult) (n : Nat) : Nat :=
  ((List.range n).map fun j => (pageTags (r j)).length).sum

/-- One successful iteration of the loop of lines 30-46: defined only when
the guard holds and the fetch returns a well-shaped page, in which case it
performs exactly the state update of `runPages`. -/
def stepState (r : Nat → FetchResult) (s : LoopState) : Option LoopState :=
  if loopActive s then
    match r s.currentPage with
    | .ok names next =>
      let tags := s.allTags ++ names.filter hasDigit
      some ⟨next, s.currentPage + 1,
        if tags.length < 5 && next then s.maxPages + 1 else s.maxPages, tags⟩
    | _ => none
  else none

/-- State of the loop after its first `n` iterations, when the run performs
at least `n` successful page fetches; used to express that a failure occurs
at a point pagination actually reaches. -/
def iterState (r : Nat → FetchResult) : Nat → Option LoopState
  | 0 => some initState
  | n + 1 => (iterState r n).bind (stepState r)

example :
    runPages (fun _ => .ok ["2.4", "latest"] false) 3 initState =
      .done ["2.4"] := by decide
example :
    get_latest_tag (fun _ => .ok ["2.4", "2.5"] false) 2 =
      some (.ok (some "2.5")) := by decide
example : get_latest_tag (fun _ => .transportErr) 1 = some (.ok none) := by
  decide
example : get_latest_tag (fun _ => .badShape) 1 = some (.error ()) := by
  decide

/-! ## The config-file walk (lines 76-120) -/

/-- Result of `yaml.safe_load` on a config file, as far as the program
inspects it: the null document, a mapping (keys and the values the program
reads modelled as strings), or some other document. -/
inductive YamlVal where
  | nullV
  | dictV (m : List (String × String))
  | otherV
deriving Repr, DecidableEq

/-- Outcome of opening and loading one file (lines 88-90): an exception
(unreadable file or a YAML syntax error), or a parsed document. -/
inductive LoadResult where
  | loadError
  | value (v : YamlVal)
deriving Repr, DecidableEq

/-- One `config.yaml` file found by the walk: its path, its on-disk bytes
and what `yaml.safe_load` yields on them. -/
structure ConfigFile where
  path : String
  raw : String
  parsed : LoadResult
deriving Repr, DecidableEq

/-- Models `config['version'] = latest_tag` on a Python dict (line 106):
replace the value in place if the key exists, else append the key at the
end (dict insertion order). -/
def setKey : List (String × String) → String → String → List (String × String)
  | [], k, v => [(k, v)]
  | (k', v') :: rest, k, v =>
    if k' = k then (k, v) :: rest else (k', v') :: setKey rest k v

/-- Modelled from the spec: the external `yaml.dump(config, f,
default_flow_style=False, sort_keys=False)` of line 110, an order-preserving
serialization of the mapping. -/
def yamlDump (m : List (String × String)) : String :=
  String.join (m.map fun kv => kv.1 ++ ": " ++ kv.2 ++ "\n")

/-- The file after lines 106-110 rewrote it: same path, bytes replaced by
the dump of the mapping with `version` set to `t`. -/
def writeVersion (f : ConfigFile) (m : List (String × String)) (t : String) :
    ConfigFile :=
  { path := f.path,
    raw := yamlDump (setKey m "version" t),
    parsed := .value (.dictV (setKey m "version" t)) }

/-- Models the per-file body of lines 87-118 for one file, given the
resolver (the program passes `config['image']` to `get_latest_tag`; an
`.error` return stands for an exception the resolver raises, caught by the
per-file handler of lines 116-118).  Returns the contributions to
`(updated_count, error_count)` and the file as left on disk.  A load failure
hits the handler (error count 1); a non-mapping document is skipped (lines
92-94); a mapping without `image` falls through (line 96); a falsy resolver
result is only logged (lines 114-115); an up-to-date `version` is a no-op
(lines 112-113); otherwise the file is rewritten (lines 104-111). -/
def processFile (resolve : String → Except Unit (Option String))
    (f : ConfigFile) : Nat × Nat × ConfigFile :=
  match f.parsed with
  | .loadError => (0, 1, f)
  | .value (.dictV m) =>
    match m.lookup "image" with
    | none => (0, 0, f)
    | some img =>
      match resolve img with
      | .error _ => (0, 1, f)
      | .ok none => (0, 0, f)
      | .ok (some t) =>
        if t = "" then (0, 0, f)
        else if m.lookup "version" = some t then (0, 0, f)
        else (1, 0, writeVersion f m t)
  | .value _ => (0, 0, f)

/-- Models `update_config_files` (lines 76-120) over the list of
`config.yaml` files the walk visits, in walk order: fold the per-file body,
summing the `(updated_count, error_count)` tallies and collecting the files
as left on disk. -/
def update_config_files (resolve : String → Except Unit (Option String)) :
    List ConfigFile → Nat × Nat × List ConfigFile
  | [] => (0, 0, [])
  | f :: fs =>
    let r := processFile resolve f
    let rest := update_config_files resolve fs
    (r.1 + rest.1, r.2.1 + rest.2.1, r.2.2 :: rest.2.2)

example :
    processFile (fun _ => .ok (some "1.2.0"))
      ⟨"a/config.yaml", "image: x/y\nversion: 1.0.0\n",
        .value (.dictV [("image", "x/y"), ("version", "1.0.0")])⟩ =
      (1, 0, ⟨"a/config.yaml", "image: x/y\nversion: 1.2.0\n",
        .value (.dictV [("image", "x/y"), ("version", "1.2.0")])⟩) := by
  decide

/-! ## Facts about the tag selection (lines 53-74) -/

lemma mem_taggedVersions {tags : List String} {p : PyVersion × String} :
    p ∈ taggedVersions tags ↔ p.2 ∈ tags ∧ parseVersion p.2 = some p.1 := by
  constructor
  · intro h
    rcases List.mem_filterMap.mp h with ⟨a, ha, hfa⟩
    rcases Option.map_eq_some'.mp hfa with ⟨v, hv, heq⟩
    cases heq
    exact ⟨ha, hv⟩
  · rintro ⟨h1, h2⟩
    exact List.mem_filterMap.mpr ⟨p.2, h1, by rw [h2]; rfl⟩

lemma insertionSort_nil_iff {α : Type} (r : α → α → Prop) [DecidableRel r]
    {l : List α} : List.insertionSort r l = [] ↔ l = [] := by
  constructor
  · intro h
    have hl := (List.perm_insertionSort r l).length_eq
    rw [h] at hl
    exact List.length_eq_zero.mp hl.symm
  · intro h
    rw [h]
    rfl

lemma sortedPairs_head_max {tags : List String} {p : PyVersion × String}
    {rest : List (PyVersion × String)}
    (h : List.insertionSort pairDesc (taggedVersions tags) = p :: rest) :
    p ∈ taggedVersions tags ∧
      ∀ q ∈ taggedVersions tags, pairKey q ≤ pairKey p := by
  have hperm := List.perm_insertionSort pairDesc (taggedVersions tags)
  rw [h] at hperm
  have hsorted := List.sorted_insertionSort pairDesc (taggedVersions tags)
  rw [h] at hsorted
  refine ⟨hperm.mem_iff.mp (List.mem_cons_self p rest), fun q hq => ?_⟩
  rcases List.mem_cons.mp (hperm.mem_iff.mpr hq) with rfl | hq'
  · exact le_refl _
  · exact List.rel_of_sorted_cons hsorted q hq'

lemma sortedStr_head_max {tags : List String} {t : String} {rest : List String}
    (h : List.insertionSort strDesc tags = t :: rest) :
    t ∈ tags ∧ ∀ u ∈ tags, u.data ≤ t.data := by
  have hperm := List.perm_insertionSort strDesc tags
  rw [h] at hperm
  have hsorted := List.sorted_insertionSort strDesc tags
  rw [h] at hsorted
  refine ⟨hperm.mem_iff.mp (List.mem_cons_self t rest), fun u hu => ?_⟩
  rcases List.mem_cons.mp (hperm.mem_iff.mpr hu) with rfl | hu'
  · exact le_refl _
  · exact List.rel_of_sorted_cons hsorted u hu'

lemma pairKey_le_fst {p q : PyVersion × String}
    (h : pairKey q ≤ pairKey p) : verKey q.1 ≤ verKey p.1 := by
  rcases (Prod.Lex.le_iff _ _).mp h with h' | h'
  · exact le_of_lt h'
  · exact le_of_eq h'.1

lemma pairKey_eq_iff {p q : PyVersion × String} :
    pairKey p = pairKey q ↔ verKey p.1 = verKey q.1 ∧ p.2 = q.2 := by
  unfold pairKey
  rw [toLex_inj, Prod.mk.injEq]
  constructor
  · rintro ⟨h1, h2⟩
    exact ⟨h1, String.ext h2⟩
  · rintro ⟨h1, h2⟩
    exact ⟨h1, by rw [h2]⟩

lemma tagged_antisymm {tags : List String} {p q : PyVersion × String}
    (hp : p ∈ taggedVersions tags) (hq : q ∈ taggedVersions tags)
    (h1 : pairKey p ≤ pairKey q) (h2 : pairKey q ≤ pairKey p) : p = q := by
  obtain ⟨hkey, hstr⟩ := pairKey_eq_iff.mp (le_antisymm h1 h2)
  obtain ⟨-, hp2⟩ := mem_taggedVersions.mp hp
  obtain ⟨-, hq2⟩ := mem_taggedVersions.mp hq
  rw [hstr, hq2] at hp2
  exact Prod.ext (Option.some.inj hp2).symm hstr

lemma selectLatest_perm {tags tags' : List String} (h : tags.Perm tags') :
    selectLatest tags = selectLatest tags' := by
  have hp : (taggedVersions tags).Perm (taggedVersions tags') := h.filterMap _
  unfold selectLatest
  cases h1 : List.insertionSort pairDesc (taggedVersions tags) with
  | cons p rest =>
    cases h2 : List.insertionSort pairDesc (taggedVersions tags') with
    | cons p' rest' =>
      obtain ⟨hm1, hmax1⟩ := sortedPairs_head_max h1
      obtain ⟨hm2, hmax2⟩ := sortedPairs_head_max h2
      have hmem21 : p' ∈ taggedVersions tags := hp.mem_iff.mpr hm2
      have hmem12 : p ∈ taggedVersions tags' := hp.mem_iff.mp hm1
      have : p = p' := tagged_antisymm hm1 hmem21 (hmax2 p hmem12) (hmax1 p' hmem21)
      rw [this]
    | nil =>
      exfalso
      have hnil : taggedVersions tags' = [] := (insertionSort_nil_iff _).mp h2
      have hm1 := (sortedPairs_head_max h1).1
      have hm1' : p ∈ taggedVersions tags' := hp.mem_iff.mp hm1
      simp [hnil] at hm1'
  | nil =>
    have htags : taggedVersions tags = [] := (insertionSort_nil_iff _).mp h1
    have htags' : taggedVersions tags' = [] := by
      rcases List.eq_nil_or_concat (taggedVersions tags') with hn | hc
      · exact hn
      · exfalso
        rcases hc with ⟨l, b, hb⟩
        have : b ∈ taggedVersions tags := hp.mem_iff.mpr (by simp [hb])
        simp [htags] at this
    rw [(insertionSort_nil_iff pairDesc).mpr htags']
    cases s1 : List.insertionSort strDesc tags with
    | cons t rest =>
      cases s2 : List.insertionSort strDesc tags' with
      | cons t' rest' =>
        obtain ⟨ht1, hmax1⟩ := sortedStr_head_max s1
        obtain ⟨ht2, hmax2⟩ := sortedStr_head_max s2
        have e : t = t' :=
          String.ext (le_antisymm (hmax2 t (h.mem_iff.mp ht1))
            (hmax1 t' (h.mem_iff.mpr ht2)))
        rw [e]
      | nil =>
        exfalso
        have : tags' = [] := (insertionSort_nil_iff _).mp s2
        have ht1 := (sortedStr_head_max s1).1
        rw [h.mem_iff] at ht1
        simp [this] at ht1
    | nil =>
      have : tags = [] := (insertionSort_nil_iff _).mp s1
      have : tags' = [] := by
        rcases List.eq_nil_or_concat tags' with hn | ⟨l, b, hb⟩
        · exact hn
        · exfalso
          have hmem : b ∈ tags := h.mem_iff.mpr (by simp [hb])
          simp [this] at hmem
      rw [(insertionSort_nil_iff strDesc).mpr this]

/-! ## Facts about the pagination loop (lines 30-49) -/

/-- Recognizes the fuel-exhaustion modelling artifact. -/
def isFuelOut : LoopOutcome → Bool
  | .fuelOut _ => true
  | _ => false

lemma runPages_inactive {r : Nat → FetchResult} {s : LoopState}
    (h : loopActive s = false) (fuel : Nat) :
    runPages r fuel s = .done s.allTags := by
  cases fuel <;> simp [runPages, h]

lemma runPages_done_hasDigit {r : Nat → FetchResult} :
    ∀ fuel (s : LoopState) (tags : List String),
      runPages r fuel s = .done tags → (∀ t ∈ s.allTags, hasDigit t) →
      ∀ t ∈ tags, hasDigit t := by
  intro fuel
  induction fuel with
  | zero =>
    intro s tags h hall
    cases ha : loopActive s <;> rw [runPages] at h <;> simp [ha] at h
    rw [← h]
    exact hall
  | succ n ih =>
    intro s tags h hall
    cases ha : loopActive s
    · rw [runPages_inactive ha] at h
      cases h
      exact hall
    · rw [runPages] at h
      simp only [ha, if_true] at h
      cases hrr : r s.currentPage <;> rw [hrr] at h
      · cases h
      · cases h
      · refine ih _ _ h fun t ht => ?_
        rcases List.mem_append.mp ht with h1 | h2
        · exact hall t h1
        · exact (List.mem_filter.mp h2).2

lemma runPages_no_raise {r : Nat → FetchResult}
    (hr : ∀ j, r j ≠ .badShape) :
    ∀ fuel (s : LoopState), runPages r fuel s ≠ .raised := by
  intro fuel
  induction fuel with
  | zero =>
    intro s h
    cases ha : loopActive s <;> rw [runPages] at h <;> simp [ha] at h
  | succ n ih =>
    intro s h
    cases ha : loopActive s
    · rw [runPages_inactive ha] at h
      cases h
    · rw [runPages] at h
      simp only [ha, if_true] at h
      cases hrr : r s.currentPage <;> rw [hrr] at h
      · cases h
      · exact hr _ hrr
      · exact ih _ h

lemma candCount_succ (r : Nat → FetchResult) (n : Nat) :
    candCount r (n + 1) = candCount r n + (pageTags (r n)).length := by
  simp [candCount, List.range_succ]

lemma runPages_frozen {r : Nat → FetchResult} :
    ∀ fuel (s : LoopState), 1 ≤ fuel → 5 ≤ s.allTags.length →
      s.maxPages ≤ s.currentPage + 1 →
      isFuelOut (runPages r fuel s) = false := by
  intro fuel s hf h5 hmp
  match fuel, hf with
  | fuel + 1, _ =>
    cases ha : loopActive s
    · rw [runPages_inactive ha]
      rfl
    · have hcp : s.currentPage < s.maxPages := by
        have h' := ha
        simp [loopActive] at h'
        exact h'.2
      rw [runPages]
      simp only [ha, if_true]
      cases hrr : r s.currentPage
      · rfl
      · rfl
      · rename_i names next
        have hlen : ¬ ((s.allTags ++ names.filter hasDigit).length < 5) := by
          rw [List.length_append]
          omega
        have hnact : loopActive
            ⟨next, s.currentPage + 1,
              if (s.allTags ++ names.filter hasDigit).length < 5 && next
              then s.maxPages + 1 else s.maxPages,
              s.allTags ++ names.filter hasDigit⟩ = false := by
          simp only [loopActive, hlen]
          simp
          intro
          omega
        show isFuelOut (runPages r fuel _) = false
        rw [runPages_inactive hnact]
        rfl

lemma runPages_stops_of_stopper {r : Nat → FetchResult} :
    ∀ fuel (s : LoopState) (j : Nat), j + 2 ≤ fuel →
      isStopper (r (s.currentPage + j)) = true →
      isFuelOut (runPages r fuel s) = false := by
  intro fuel
  induction fuel with
  | zero =>
    intro s j hj
    omega
  | succ n ih =>
    intro s j hj hst
    cases ha : loopActive s
    · rw [runPages_inactive ha]
      rfl
    · rw [runPages]
      simp only [ha, if_true]
      cases hrr : r s.currentPage
      · rfl
      · rfl
      · rename_i names next
        cases j with
        | zero =>
          rw [Nat.add_zero, hrr] at hst
          cases next
          · have hnact : loopActive
                ⟨false, s.currentPage + 1,
                  if (s.allTags ++ names.filter hasDigit).length < 5 && false
                  then s.maxPages + 1 else s.maxPages,
                  s.allTags ++ names.filter hasDigit⟩ = false := by
              simp [loopActive]
            show isFuelOut (runPages r n _) = false
            rw [runPages_inactive hnact]
            rfl
          · simp [isStopper] at hst
        | succ j' =>
          refine ih _ j' (by omega) ?_
          have : s.currentPage + 1 + j' = s.currentPage + (j' + 1) := by omega
          rw [this]
          exact hst

lemma runPages_stops_of_count {r : Nat → FetchResult} {k : Nat}
    (hk : 5 ≤ candCount r (k + 1)) :
    ∀ fuel (s : LoopState),
      candCount r s.currentPage ≤ s.allTags.length →
      s.maxPages ≤ s.currentPage + 1 →
      s.currentPage ≤ k + 1 → k + 2 ≤ s.currentPage + fuel →
      isFuelOut (runPages r fuel s) = false := by
  intro fuel
  induction fuel with
  | zero =>
    intro s _ _ hcpk hf
    omega
  | succ n ih =>
    intro s hcc hmp hcpk hf
    by_cases h5 : 5 ≤ s.allTags.length
    · exact runPages_frozen (n + 1) s (by omega) h5 hmp
    · have hcpk' : s.currentPage ≤ k := by
        rcases Nat.lt_or_ge s.currentPage (k + 1) with h | h
        · omega
        · have hcpe : s.currentPage = k + 1 := by omega
          rw [hcpe] at hcc
          omega
      cases ha : loopActive s
      · rw [runPages_inactive ha]
        rfl
      · rw [runPages]
        simp only [ha, if_true]
        cases hrr : r s.currentPage
        · rfl
        · rfl
        · rename_i names next
          refine ih ⟨next, s.currentPage + 1, _, _⟩ ?_ ?_ ?_ ?_
          · show candCount r (s.currentPage + 1) ≤
              (s.allTags ++ names.filter hasDigit).length
            rw [candCount_succ, hrr, List.length_append]
            simp only [pageTags]
            omega
          · show (if (s.allTags ++ names.filter hasDigit).length < 5 && next
                  then s.maxPages + 1 else s.maxPages) ≤ s.currentPage + 1 + 1
            split <;> omega
          · show s.currentPage + 1 ≤ k + 1
            omega
          · show k + 2 ≤ s.currentPage + 1 + n
            omega

lemma runPages_iterState {r : Nat → FetchResult} :
    ∀ (n : Nat) (s : LoopState), iterState r n = some s →
      ∀ fuel, runPages r (n + fuel) initState = runPages r fuel s := by
  intro n
  induction n with
  | zero =>
    intro s h fuel
    simp only [iterState, Option.some.injEq] at h
    rw [Nat.zero_add, h]
  | succ n ih =>
    intro s h fuel
    rw [iterState] at h
    rcases Option.bind_eq_some.mp h with ⟨s', hs', hstep⟩
    unfold stepState at hstep
    cases ha : loopActive s'
    · rw [ha] at hstep
      simp at hstep
    · simp only [ha, if_true] at hstep
      cases hrr : r s'.currentPage <;> rw [hrr] at hstep
      · simp at hstep
      · simp at hstep
      · rename_i names next
        simp only [Option.some.injEq] at hstep
        subst hstep
        have harith : n + 1 + fuel = n + (fuel + 1) := by omega
        rw [harith, ih s' hs' (fuel + 1), runPages]
        simp only [ha, if_true]
        rw [hrr]

lemma runPages_transportErr {r : Nat → FetchResult} {s : LoopState}
    (ha : loopActive s = true)
    (he : r s.currentPage = FetchResult.transportErr) :
    ∀ fuel, 1 ≤ fuel → runPages r fuel s = .earlyNone := by
  intro fuel hf
  match fuel, hf with
  | f + 1, _ =>
    rw [runPages]
    simp only [ha, if_true]
    rw [he]

/-- A registry that answers every fetch with a well-shaped page whose only
tag bears no digit and that always advertises a next page. -/
def C4badPages : Nat → FetchResult := fun _ => .ok ["latest"] true

/-- The pagination loop never halts on this registry: each iteration adds no
candidate, so lines 45-46 keep growing `max_pages` in step with
`current_page`. -/
def neverHalts (r : Nat → FetchResult) : Prop :=
  ∀ fuel, isFuelOut (runPages r fuel initState) = true

lemma C4bad_step :
    ∀ fuel n, runPages C4badPages fuel ⟨true, n, n + 1, []⟩ =
      .fuelOut ⟨true, n + fuel, n + fuel + 1, []⟩ := by
  intro fuel
  induction fuel with
  | zero =>
    intro n
    rw [runPages]
    simp [loopActive]
  | succ m ih =>
    intro n
    rw [runPages]
    have ha : loopActive ⟨true, n, n + 1, []⟩ = true := by simp [loopActive]
    simp only [ha, if_true]
    show runPages C4badPages m ⟨true, n + 1, (n + 1) + 1, []⟩ =
      .fuelOut ⟨true, n + (m + 1), n + (m + 1) + 1, []⟩
    have harith : n + 1 + m = n + (m + 1) := by omega
    rw [ih (n + 1), harith]

/-! ## Facts about `get_latest_tag` as a whole -/

lemma get_latest_tag_done {r : Nat → FetchResult} {fuel : Nat}
    {tags : List String} (h : runPages r fuel initState = .done tags) :
    get_latest_tag r fuel = some (.ok (selectLatest tags)) := by
  simp [get_latest_tag, h]

lemma selectLatest_mem {tags : List String} {m : String}
    (h : selectLatest tags = some m) : m ∈ tags := by
  unfold selectLatest at h
  cases h1 : List.insertionSort pairDesc (taggedVersions tags) with
  | cons p rest =>
    rw [h1] at h
    cases h
    exact (mem_taggedVersions.mp (sortedPairs_head_max h1).1).1
  | nil =>
    rw [h1] at h
    cases s1 : List.insertionSort strDesc tags with
    | cons t rest =>
      rw [s1] at h
      cases h
      exact (sortedStr_head_max s1).1
    | nil =>
      rw [s1] at h
      cases h

lemma get_latest_tag_ne_empty {r : Nat → FetchResult} {fuel : Nat}
    {T : String} (h : get_latest_tag r fuel = some (.ok (some T))) :
    T ≠ "" := by
  unfold get_latest_tag at h
  cases ho : runPages r fuel initState <;> rw [ho] at h
  · cases h
  · simp at h
  · simp at h
  · rename_i tags
    simp only [Option.some.injEq, Except.ok.injEq] at h
    have hdig : hasDigit T :=
      runPages_done_hasDigit fuel initState tags ho
        (fun t ht => by simp [initState] at ht) T (selectLatest_mem h)
    intro he
    rw [he] at hdig
    exact absurd hdig (by decide)

/-! ## Claims -/

/-- C1: for every tag list accumulated from the registry that contains at
least one tag parsing as a (non-legacy) semantic version, `get_latest_tag`
returns a tag whose parsed version has maximum semantic-version precedence
among the parseable candidates, and the result is independent of the order
in which the tags appear in the registry response. -/
theorem C1_max_semver_order_independent (r : Nat → FetchResult) (fuel : Nat)
    (tags : List String) (t0 : String) (v0 : PyVersion)
    (hdone : runPages r fuel initState = .done tags)
    (ht0 : t0 ∈ tags) (hv0 : parseVersion t0 = some v0) :
    ∃ t v, get_latest_tag r fuel = some (.ok (some t)) ∧ t ∈ tags ∧
      parseVersion t = some v ∧
      (∀ u ∈ tags, ∀ w ∈ parseVersion u, verLe w v) ∧
      ∀ (r' : Nat → FetchResult) (fuel' : Nat) (tags' : List String),
        runPages r' fuel' initState = .done tags' → tags.Perm tags' →
        get_latest_tag r' fuel' = get_latest_tag r fuel := by
  have hmem : (v0, t0) ∈ taggedVersions tags := mem_taggedVersions.mpr ⟨ht0, hv0⟩
  cases hs : List.insertionSort pairDesc (taggedVersions tags) with
  | nil =>
    exfalso
    have hnil := (insertionSort_nil_iff pairDesc).mp hs
    rw [hnil] at hmem
    cases hmem
  | cons p rest =>
    obtain ⟨hp, hmax⟩ := sortedPairs_head_max hs
    obtain ⟨hpt, hpv⟩ := mem_taggedVersions.mp hp
    have hsel : selectLatest tags = some p.2 := by
      unfold selectLatest
      rw [hs]
    refine ⟨p.2, p.1, by rw [get_latest_tag_done hdone, hsel], hpt, hpv,
      fun u hu w hw => ?_, fun r' fuel' tags' hdone' hperm => ?_⟩
    · exact pairKey_le_fst (hmax (w, u) (mem_taggedVersions.mpr ⟨hu, hw⟩))
    · rw [get_latest_tag_done hdone', get_latest_tag_done hdone,
        ← selectLatest_perm hperm]

/-- C1 witness: a registry answering one page with tags
`["1.2.0", "1.0.0"]` and no next page. -/
theorem C1_witness :
    runPages (fun _ => FetchResult.ok ["1.2.0", "1.0.0"] false) 1 initState =
      .done ["1.2.0", "1.0.0"] ∧
    "1.2.0" ∈ ["1.2.0", "1.0.0"] ∧
    parseVersion "1.2.0" = some ⟨[1, 2, 0], none⟩ ∧
    (∃ t v,
      get_latest_tag (fun _ => FetchResult.ok ["1.2.0", "1.0.0"] false) 1 =
        some (.ok (some t)) ∧
      t ∈ ["1.2.0", "1.0.0"] ∧ parseVersion t = some v ∧
      (∀ u ∈ ["1.2.0", "1.0.0"], ∀ w ∈ parseVersion u, verLe w v) ∧
      ∀ (r' : Nat → FetchResult) (fuel' : Nat) (tags' : List String),
        runPages r' fuel' initState = .done tags' →
        List.Perm ["1.2.0", "1.0.0"] tags' →
        get_latest_tag r' fuel' =
          get_latest_tag (fun _ => FetchResult.ok ["1.2.0", "1.0.0"] false) 1) :=
  ⟨by decide, by decide, by decide,
    C1_max_semver_order_independent _ 1 _ "1.2.0" ⟨[1, 2, 0], none⟩
      (by decide) (by decide) (by decide)⟩

/-- C2 counterexample: in the candidate list `["9", "10"]` both entries are
digit-bearing and parse as (non-legacy) semantic versions, so the fallback
of the claim never applies to it and `get_latest_tag` returns `"10"`, not
`"9"` as the claim asserts. -/
theorem C2_counterexample :
    hasDigit "9" = true ∧ hasDigit "10" = true ∧
    parseVersion "9" = some ⟨[9], none⟩ ∧
    parseVersion "10" = some ⟨[10], none⟩ ∧
    get_latest_tag (fun _ => FetchResult.ok ["9", "10"] false) 1 =
      some (.ok (some "10")) := by
  refine ⟨by decide, by decide, by decide, by decide, by decide⟩

/-- C2 (amended): for every accumulated tag list in which no candidate
parses as a (non-legacy) semantic version but at least one candidate
exists, `get_latest_tag` returns the lexicographically (by code points)
maximum raw candidate string; for example for candidates `["a9", "a10"]`
it returns `"a9"`, not `"a10"`.  (The example `["9", "10"]` of the claim
instead takes the semantic path and yields `"10"`.) -/
theorem C2_lex_fallback (r : Nat → FetchResult) (fuel : Nat)
    (tags : List String)
    (hdone : runPages r fuel initState = .done tags)
    (hnone : ∀ t ∈ tags, parseVersion t = none) (hne : tags ≠ []) :
    ∃ m, get_latest_tag r fuel = some (.ok (some m)) ∧ m ∈ tags ∧
      ∀ t ∈ tags, t.data ≤ m.data := by
  have htagged : taggedVersions tags = [] := by
    refine List.filterMap_eq_nil_iff.mpr fun a ha => ?_
    rw [Option.map_eq_none']
    exact hnone a ha
  have hsort : List.insertionSort pairDesc (taggedVersions tags) = [] := by
    rw [htagged]
    rfl
  cases hstr : List.insertionSort strDesc tags with
  | nil => exact absurd ((insertionSort_nil_iff strDesc).mp hstr) hne
  | cons t rest =>
    obtain ⟨htm, hmax⟩ := sortedStr_head_max hstr
    have hsel : selectLatest tags = some t := by
      unfold selectLatest
      rw [hsort, hstr]
    exact ⟨t, by rw [get_latest_tag_done hdone, hsel], htm, hmax⟩

/-- C2 witness: a registry answering one page with the digit-bearing but
unparseable tags `["a9", "a10"]`. -/
theorem C2_witness :
    runPages (fun _ => FetchResult.ok ["a9", "a10"] false) 1 initState =
      .done ["a9", "a10"] ∧
    (∀ t ∈ ["a9", "a10"], parseVersion t = none) ∧
    (["a9", "a10"] : List String) ≠ [] ∧
    (∃ m,
      get_latest_tag (fun _ => FetchResult.ok ["a9", "a10"] false) 1 =
        some (.ok (some m)) ∧
      m ∈ ["a9", "a10"] ∧ ∀ t ∈ ["a9", "a10"], t.data ≤ m.data) :=
  ⟨by decide, by decide, by decide,
    C2_lex_fallback _ 1 _ (by decide) (by decide) (by decide)⟩

/-- C9: when two distinct candidate tags parse to precedence-equal semantic
versions that are maximal among the parseable candidates, `get_latest_tag`
returns a tag of that tied class that is lexicographically (by code points)
greatest in it, and in particular at least as large as either tied tag: the
descending sort is over `(parsed_version, tag)` pairs and ties break on the
raw tag string. -/
theorem C9_tie_breaks_on_tag (r : Nat → FetchResult) (fuel : Nat)
    (tags : List String) (t1 t2 : String) (v1 v2 : PyVersion)
    (hdone : runPages r fuel initState = .done tags)
    (h1 : t1 ∈ tags) (h2 : t2 ∈ tags) (hne : t1 ≠ t2)
    (hp1 : parseVersion t1 = some v1) (hp2 : parseVersion t2 = some v2)
    (hkey : verKey v1 = verKey v2)
    (hmax : ∀ u ∈ tags, ∀ w ∈ parseVersion u, verLe w v1) :
    ∃ m vm, get_latest_tag r fuel = some (.ok (some m)) ∧ m ∈ tags ∧
      parseVersion m = some vm ∧ verKey vm = verKey v1 ∧
      t1.data ≤ m.data ∧ t2.data ≤ m.data ∧
      ∀ u ∈ tags, ∀ w ∈ parseVersion u, verKey w = verKey v1 →
        u.data ≤ m.data := by
  cases hs : List.insertionSort pairDesc (taggedVersions tags) with
  | nil =>
    exfalso
    have hnil := (insertionSort_nil_iff pairDesc).mp hs
    have hm : (v1, t1) ∈ taggedVersions tags := mem_taggedVersions.mpr ⟨h1, hp1⟩
    rw [hnil] at hm
    cases hm
  | cons p rest =>
    obtain ⟨hpmem, hmaxp⟩ := sortedPairs_head_max hs
    obtain ⟨hpt, hpv⟩ := mem_taggedVersions.mp hpmem
    have hsel : selectLatest tags = some p.2 := by
      unfold selectLatest
      rw [hs]
    have hkeyp : verKey p.1 = verKey v1 := by
      refine le_antisymm (hmax p.2 hpt p.1 (Option.mem_def.mpr hpv)) ?_
      exact pairKey_le_fst (hmaxp (v1, t1) (mem_taggedVersions.mpr ⟨h1, hp1⟩))
    have tie : ∀ u ∈ tags, ∀ w ∈ parseVersion u, verKey w = verKey v1 →
        u.data ≤ p.2.data := by
      intro u hu w hw hwk
      have hq : (w, u) ∈ taggedVersions tags :=
        mem_taggedVersions.mpr ⟨hu, Option.mem_def.mp hw⟩
      have hle : verKey w < verKey p.1 ∨
          (verKey w = verKey p.1 ∧ u.data ≤ p.2.data) :=
        (Prod.Lex.le_iff _ _).mp (hmaxp _ hq)
      rcases hle with hlt | heq
      · exfalso
        rw [hwk, ← hkeyp] at hlt
        exact lt_irrefl _ hlt
      · exact heq.2
    refine ⟨p.2, p.1, by rw [get_latest_tag_done hdone, hsel], hpt, hpv,
      hkeyp, ?_, ?_, tie⟩
    · exact tie t1 h1 v1 (Option.mem_def.mpr hp1) rfl
    · exact tie t2 h2 v2 (Option.mem_def.mpr hp2) hkey.symm

/-- C9 witness: the tied candidates `"1.0"` and `"1.0.0"` (equal parsed
versions); the returned tag is at least `"1.0.0"` in code-point order. -/
theorem C9_witness :
    runPages (fun _ => FetchResult.ok ["1.0", "1.0.0"] false) 1 initState =
      .done ["1.0", "1.0.0"] ∧
    ("1.0" : String) ≠ "1.0.0" ∧
    parseVersion "1.0" = some ⟨[1, 0], none⟩ ∧
    parseVersion "1.0.0" = some ⟨[1, 0, 0], none⟩ ∧
    verKey ⟨[1, 0], none⟩ = verKey ⟨[1, 0, 0], none⟩ ∧
    (∀ u ∈ ["1.0", "1.0.0"], ∀ w ∈ parseVersion u,
      verLe w ⟨[1, 0], none⟩) ∧
    (∃ m vm,
      get_latest_tag (fun _ => FetchResult.ok ["1.0", "1.0.0"] false) 1 =
        some (.ok (some m)) ∧
      m ∈ ["1.0", "1.0.0"] ∧ parseVersion m = some vm ∧
      verKey vm = verKey ⟨[1, 0], none⟩ ∧
      ("1.0" : String).data ≤ m.data ∧ ("1.0.0" : String).data ≤ m.data ∧
      ∀ u ∈ ["1.0", "1.0.0"], ∀ w ∈ parseVersion u,
        verKey w = verKey ⟨[1, 0], none⟩ → u.data ≤ m.data) :=
  ⟨by decide, by decide, by decide, by decide, by decide, by decide,
    C9_tie_breaks_on_tag _ 1 _ "1.0" "1.0.0" ⟨[1, 0], none⟩ ⟨[1, 0, 0], none⟩
      (by decide) (by decide) (by decide) (by decide) (by decide) (by decide)
      (by decide) (by decide)⟩

/-- C4 counterexample: a registry whose every page is well-shaped, carries
the single digit-free tag `"latest"` and advertises a next page makes the
pagination loop of lines 30-46 run forever: the accumulated candidate count
stays 0, so `max_pages` grows by one on every iteration and the loop guard
never fails.  The loop is therefore not bounded for every sequence of
registry responses. -/
theorem C4_counterexample : neverHalts C4badPages := by
  intro fuel
  have h := C4bad_step fuel 0
  have hinit : (initState : LoopState) = ⟨true, 0, 0 + 1, []⟩ := rfl
  rw [hinit, h]
  rfl

/-- C4 (amended): the page budget grows by one only while the accumulated
digit-bearing candidate count is below 5 and a next-page pointer exists, and
pagination is bounded whenever some page `k` stops the loop — by failing,
lacking a next-page pointer, or bringing the accumulated digit-bearing
candidate count to 5 or more — in which case at most `k + 2` iterations run;
a registry that keeps advertising next pages while the candidate count stays
below 5 is paged without bound. -/
theorem C4_bounded_pagination (r : Nat → FetchResult) (k fuel : Nat)
    (h : isStopper (r k) = true ∨ 5 ≤ candCount r (k + 1))
    (hf : k + 2 ≤ fuel) :
    isFuelOut (runPages r fuel initState) = false := by
  rcases h with h | h
  · have h0 : isStopper (r (initState.currentPage + k)) = true := by
      simpa [initState] using h
    exact runPages_stops_of_stopper fuel initState k hf h0
  · refine runPages_stops_of_count h fuel initState ?_ ?_ ?_ ?_
    · simp [candCount, initState]
    · simp [initState]
    · simp [initState]
    · simpa [initState] using hf

/-- C4 witness: one well-shaped page with tag `"1"` and no next page stops
after a single fetch, within the `k + 2 = 2` iteration bound. -/
theorem C4_witness :
    isStopper ((fun _ => FetchResult.ok ["1"] false) 0) = true ∧
    (0 : Nat) + 2 ≤ 2 ∧
    isFuelOut
      (runPages (fun _ => FetchResult.ok ["1"] false) 2 initState) = false :=
  ⟨by decide, by decide,
    C4_bounded_pagination _ 0 2 (Or.inl (by decide)) (by decide)⟩

/-- C5 counterexample: a registry response whose body is valid JSON but not
of the expected shape (modelled by `badShape`, e.g. a JSON array, on which
line 37 `data.get` raises `AttributeError`) makes the exception escape
`get_latest_tag` instead of returning the `None` sentinel: the handler of
lines 47-49 only catches `requests.RequestException`. -/
theorem C5_counterexample :
    get_latest_tag (fun _ => FetchResult.badShape) 1 = some (.error ()) := by
  decide

/-- C5 (amended): if no response body is shape-malformed, no exception
escapes `get_latest_tag`; an empty accumulated candidate list yields the
`None` sentinel; a transport failure (network error, non-success HTTP
status, or — for requests >= 2.27 — a JSON-decode failure) at any point
pagination actually reaches yields the `None` sentinel; and a resolver
exception (as raised on a body that is valid JSON of an unexpected shape)
is caught by the per-file handler of `update_config_files`, which counts
one processing error and leaves the file untouched. -/
theorem C5_failure_yields_none (r : Nat → FetchResult) (fuel : Nat) :
    ((∀ j, r j ≠ FetchResult.badShape) →
      get_latest_tag r fuel ≠ some (.error ())) ∧
    (runPages r fuel initState = .done [] →
      get_latest_tag r fuel = some (.ok none)) ∧
    (∀ (n : Nat) (s : LoopState), iterState r n = some s →
      loopActive s = true → r s.currentPage = FetchResult.transportErr →
      n + 1 ≤ fuel → get_latest_tag r fuel = some (.ok none)) ∧
    (∀ (resolve : String → Except Unit (Option String)) (f : ConfigFile)
      (m : List (String × String)) (img : String),
      f.parsed = .value (.dictV m) → m.lookup "image" = some img →
      resolve img = .error () → processFile resolve f = (0, 1, f)) := by
  refine ⟨?_, ?_, ?_, ?_⟩
  · intro hnb h
    unfold get_latest_tag at h
    cases ho : runPages r fuel initState <;> rw [ho] at h
    · cases h
    · exact runPages_no_raise hnb fuel initState ho
    · simp at h
    · simp at h
  · intro h
    rw [get_latest_tag_done h]
    rfl
  · intro n s hn ha he hf
    have hrun : runPages r fuel initState = .earlyNone := by
      rw [show fuel = n + (fuel - n) from by omega,
        runPages_iterState n s hn (fuel - n)]
      exact runPages_transportErr ha he (fuel - n) (by omega)
    unfold get_latest_tag
    rw [hrun]
  · intro resolve f m img hp him hres
    simp [processFile, hp, him, hres]

/-- C5 witness: a registry whose first page succeeds with tag `"1"` and a
next-page pointer and whose second fetch fails in transport returns the
`None` sentinel (failure beyond the first fetch), raises nothing, and a
resolver exception is absorbed by the per-file handler as one processing
error. -/
theorem C5_witness :
    iterState
        (fun j => if j = 0 then FetchResult.ok ["1"] true
          else FetchResult.transportErr) 1 = some ⟨true, 1, 2, ["1"]⟩ ∧
    loopActive ⟨true, 1, 2, ["1"]⟩ = true ∧
    (fun j => if j = 0 then FetchResult.ok ["1"] true
      else FetchResult.transportErr) 1 = FetchResult.transportErr ∧
    (1 : Nat) + 1 ≤ 2 ∧
    get_latest_tag
        (fun j => if j = 0 then FetchResult.ok ["1"] true
          else FetchResult.transportErr) 2 = some (.ok none) ∧
    get_latest_tag
        (fun j => if j = 0 then FetchResult.ok ["1"] true
          else FetchResult.transportErr) 2 ≠ some (.error ()) ∧
    processFile (fun _ => .error ())
        ⟨"x/config.yaml", "image: x/y\n", .value (.dictV [("image", "x/y")])⟩ =
      (0, 1,
        ⟨"x/config.yaml", "image: x/y\n",
          .value (.dictV [("image", "x/y")])⟩) :=
  ⟨by decide, by decide, by decide, by decide,
    (C5_failure_yields_none _ 2).2.2.1 1 ⟨true, 1, 2, ["1"]⟩ (by decide)
      (by decide) (by decide) (by decide),
    (C5_failure_yields_none _ 2).1
      (fun j => by cases j <;> simp),
    (C5_failure_yields_none
        (fun j => if j = 0 then FetchResult.ok ["1"] true
          else FetchResult.transportErr) 2).2.2.2 (fun _ => .error ()) _
      [("image", "x/y")] "x/y" rfl (by decide) rfl⟩

lemma lookup_setKey (m : List (String × String)) (k v : String) :
    (setKey m k v).lookup k = some v := by
  induction m with
  | nil => simp [setKey, List.lookup]
  | cons kv rest ih =>
    obtain ⟨k', v'⟩ := kv
    by_cases h : k' = k
    · subst h
      simp [setKey, List.lookup]
    · have hbeq : (k == k') = false := beq_eq_false_iff_ne.mpr (Ne.symm h)
      simp [setKey, h, List.lookup, hbeq, ih]

lemma update_cons (resolve : String → Except Unit (Option String))
    (f : ConfigFile) (fs : List ConfigFile) :
    update_config_files resolve (f :: fs) =
      ((processFile resolve f).1 + (update_config_files resolve fs).1,
       (processFile resolve f).2.1 + (update_config_files resolve fs).2.1,
       (processFile resolve f).2.2 :: (update_config_files resolve fs).2.2) :=
  rfl

/-- C3: for every config file loading as a mapping with an `image` key, when
the resolver returns a tag `T` (always nonempty for the actual resolver,
first conjunct): if `T` differs from the current `version` value (absent
treated as different), `update_config_files` rewrites the file at its path
with the mapping whose `version` is set to `T` and adds exactly 1 to
`updated_count`; if `T` equals the current value, the file is untouched and
the tallies are unchanged. -/
theorem C3_version_update (resolve : String → Except Unit (Option String))
    (f : ConfigFile) (fs : List ConfigFile) (m : List (String × String))
    (img T : String)
    (hp : f.parsed = .value (.dictV m))
    (him : m.lookup "image" = some img)
    (hres : resolve img = .ok (some T)) (hT : T ≠ "") :
    (∀ (r : Nat → FetchResult) (fuel : Nat) (u : String),
      get_latest_tag r fuel = some (.ok (some u)) → u ≠ "") ∧
    (m.lookup "version" ≠ some T →
      processFile resolve f = (1, 0, writeVersion f m T) ∧
      (update_config_files resolve (f :: fs)).1 =
        (update_config_files resolve fs).1 + 1 ∧
      (update_config_files resolve (f :: fs)).2.1 =
        (update_config_files resolve fs).2.1 ∧
      (update_config_files resolve (f :: fs)).2.2 =
        writeVersion f m T :: (update_config_files resolve fs).2.2 ∧
      (writeVersion f m T).path = f.path ∧
      (writeVersion f m T).raw = yamlDump (setKey m "version" T) ∧
      (setKey m "version" T).lookup "version" = some T) ∧
    (m.lookup "version" = some T →
      processFile resolve f = (0, 0, f) ∧
      (update_config_files resolve (f :: fs)).1 =
        (update_config_files resolve fs).1 ∧
      (update_config_files resolve (f :: fs)).2.1 =
        (update_config_files resolve fs).2.1 ∧
      (update_config_files resolve (f :: fs)).2.2 =
        f :: (update_config_files resolve fs).2.2) := by
  refine ⟨fun r fuel u h => get_latest_tag_ne_empty h, ?_, ?_⟩
  · intro hv
    have hproc : processFile resolve f = (1, 0, writeVersion f m T) := by
      simp [processFile, hp, him, hres, hT, hv]
    refine ⟨hproc, ?_, ?_, ?_, rfl, rfl, lookup_setKey m "version" T⟩
    · rw [update_cons]
      simp [hproc]
      omega
    · rw [update_cons]
      simp [hproc]
    · rw [update_cons]
      simp [hproc]
  · intro hv
    have hproc : processFile resolve f = (0, 0, f) := by
      simp [processFile, hp, him, hres, hT, hv]
    refine ⟨hproc, ?_, ?_, ?_⟩
    · rw [update_cons]
      simp [hproc]
    · rw [update_cons]
      simp [hproc]
    · rw [update_cons]
      simp [hproc]

/-- C3 witness: a file with `image: x/y`, `version: 1.0.0` and a resolver
returning `1.2.0` is rewritten with `version: 1.2.0` and counts one
update. -/
theorem C3_witness :
    ([("image", "x/y"), ("version", "1.0.0")].lookup "image" = some "x/y") ∧
    ([("image", "x/y"), ("version", "1.0.0")].lookup "version" ≠
      some "1.2.0") ∧
    ("1.2.0" : String) ≠ "" ∧
    processFile (fun _ => .ok (some "1.2.0"))
        ⟨"x/config.yaml", "image: x/y\nversion: 1.0.0\n",
          .value (.dictV [("image", "x/y"), ("version", "1.0.0")])⟩ =
      (1, 0,
        writeVersion
          ⟨"x/config.yaml", "image: x/y\nversion: 1.0.0\n",
            .value (.dictV [("image", "x/y"), ("version", "1.0.0")])⟩
          [("image", "x/y"), ("version", "1.0.0")] "1.2.0") ∧
    (update_config_files (fun _ => .ok (some "1.2.0"))
        [⟨"x/config.yaml", "image: x/y\nversion: 1.0.0\n",
          .value (.dictV [("image", "x/y"), ("version", "1.0.0")])⟩]).1 =
      (update_config_files (fun _ => .ok (some "1.2.0")) []).1 + 1 :=
  ⟨by decide, by decide, by decide,
    ((C3_version_update (fun _ => .ok (some "1.2.0")) _ [] _ "x/y" "1.2.0"
        rfl (by decide) rfl (by decide)).2.1 (by decide)).1,
    ((C3_version_update (fun _ => .ok (some "1.2.0")) _ [] _ "x/y" "1.2.0"
        rfl (by decide) rfl (by decide)).2.1 (by decide)).2.1⟩

/-- C6: a config file whose `image` resolution fails with a transport
failure (resolver returns the `None` sentinel) is left unmodified and
neither `updated_count` nor `error_count` changes for it. -/
theorem C6_transport_failure_skips (resolve : String → Except Unit (Option String))
    (f : ConfigFile) (fs : List ConfigFile) (m : List (String × String))
    (img : String)
    (hp : f.parsed = .value (.dictV m))
    (him : m.lookup "image" = some img)
    (hres : resolve img = .ok none) :
    processFile resolve f = (0, 0, f) ∧
    (update_config_files resolve (f :: fs)).1 =
      (update_config_files resolve fs).1 ∧
    (update_config_files resolve (f :: fs)).2.1 =
      (update_config_files resolve fs).2.1 ∧
    (update_config_files resolve (f :: fs)).2.2 =
      f :: (update_config_files resolve fs).2.2 := by
  have hproc : processFile resolve f = (0, 0, f) := by
    simp [processFile, hp, him, hres]
  refine ⟨hproc, ?_, ?_, ?_⟩
  · rw [update_cons]
    simp [hproc]
  · rw [update_cons]
    simp [hproc]
  · rw [update_cons]
    simp [hproc]

/-- C6 witness: a resolver reporting transport failure leaves the file and
both tallies untouched. -/
theorem C6_witness :
    ([("image", "x/y"), ("version", "1.0.0")].lookup "image" = some "x/y") ∧
    processFile (fun _ => .ok none)
        ⟨"x/config.yaml", "image: x/y\nversion: 1.0.0\n",
          .value (.dictV [("image", "x/y"), ("version", "1.0.0")])⟩ =
      (0, 0,
        ⟨"x/config.yaml", "image: x/y\nversion: 1.0.0\n",
          .value (.dictV [("image", "x/y"), ("version", "1.0.0")])⟩) :=
  ⟨by decide,
    (C6_transport_failure_skips (fun _ => .ok none) _ [] _ "x/y"
      rfl (by decide) rfl).1⟩

/-- C7: a config file loading as a mapping without an `image` key is never
rewritten — its on-disk bytes are identical before and after the run — and
neither tally changes for it. -/
theorem C7_no_image_untouched (resolve : String → Except Unit (Option String))
    (f : ConfigFile) (fs : List ConfigFile) (m : List (String × String))
    (hp : f.parsed = .value (.dictV m))
    (him : m.lookup "image" = none) :
    processFile resolve f = (0, 0, f) ∧
    (processFile resolve f).2.2.raw = f.raw ∧
    (update_config_files resolve (f :: fs)).1 =
      (update_config_files resolve fs).1 ∧
    (update_config_files resolve (f :: fs)).2.1 =
      (update_config_files resolve fs).2.1 ∧
    (update_config_files resolve (f :: fs)).2.2 =
      f :: (update_config_files resolve fs).2.2 := by
  have hproc : processFile resolve f = (0, 0, f) := by
    simp [processFile, hp, him]
  refine ⟨hproc, by rw [hproc], ?_, ?_, ?_⟩
  · rw [update_cons]
    simp [hproc]
  · rw [update_cons]
    simp [hproc]
  · rw [update_cons]
    simp [hproc]

/-- C7 witness: a mapping with only a `name` key is passed over
byte-identically. -/
theorem C7_witness :
    ([("name", "addon")].lookup "image" = (none : Option String)) ∧
    processFile (fun _ => .ok (some "1.2.0"))
        ⟨"y/config.yaml", "name: addon\n", .value (.dictV [("name", "addon")])⟩ =
      (0, 0, ⟨"y/config.yaml", "name: addon\n",
        .value (.dictV [("name", "addon")])⟩) :=
  ⟨by decide,
    (C7_no_image_untouched (fun _ => .ok (some "1.2.0")) _ [] _
      rfl (by decide)).1⟩

/-- C8: a config file that cannot be read or parsed adds exactly 1 to
`error_count` and its on-disk bytes are unchanged. -/
theorem C8_load_failure_counts (resolve : String → Except Unit (Option String))
    (f : ConfigFile) (fs : List ConfigFile)
    (hp : f.parsed = .loadError) :
    processFile resolve f = (0, 1, f) ∧
    (processFile resolve f).2.2.raw = f.raw ∧
    (update_config_files resolve (f :: fs)).1 =
      (update_config_files resolve fs).1 ∧
    (update_config_files resolve (f :: fs)).2.1 =
      (update_config_files resolve fs).2.1 + 1 ∧
    (update_config_files resolve (f :: fs)).2.2 =
      f :: (update_config_files resolve fs).2.2 := by
  have hproc : processFile resolve f = (0, 1, f) := by
    simp [processFile, hp]
  refine ⟨hproc, by rw [hproc], ?_, ?_, ?_⟩
  · rw [update_cons]
    simp [hproc]
  · rw [update_cons]
    simp [hproc]
    omega
  · rw [update_cons]
    simp [hproc]

/-- C8 witness: an unparseable file counts one error and keeps its bytes. -/
theorem C8_witness :
    (ConfigFile.mk "z/config.yaml" "image: [unclosed\n" .loadError).parsed =
      .loadError ∧
    processFile (fun _ => .ok (some "1.2.0"))
        ⟨"z/config.yaml", "image: [unclosed\n", .loadError⟩ =
      (0, 1, ⟨"z/config.yaml", "image: [unclosed\n", .loadError⟩) :=
  ⟨rfl,
    (C8_load_failure_counts (fun _ => .ok (some "1.2.0")) _ [] rfl).1⟩

/-- C10: an empty config file (or one holding only a null document), whose
load yields `None` rather than a mapping, is treated as the not-a-mapping
case: skipped with its bytes unchanged and neither tally incremented. -/
theorem C10_null_document_skipped (resolve : String → Except Unit (Option String))
    (f : ConfigFile) (fs : List ConfigFile)
    (hp : f.parsed = .value .nullV) :
    processFile resolve f = (0, 0, f) ∧
    (processFile resolve f).2.2.raw = f.raw ∧
    (update_config_files resolve (f :: fs)).1 =
      (update_config_files resolve fs).1 ∧
    (update_config_files resolve (f :: fs)).2.1 =
      (update_config_files resolve fs).2.1 ∧
    (update_config_files resolve (f :: fs)).2.2 =
      f :: (update_config_files resolve fs).2.2 := by
  have hproc : processFile resolve f = (0, 0, f) := by
    simp [processFile, hp]
  refine ⟨hproc, by rw [hproc], ?_, ?_, ?_⟩
  · rw [update_cons]
    simp [hproc]
  · rw [update_cons]
    simp [hproc]
  · rw [update_cons]
    simp [hproc]

/-- C10 witness: an empty file loading as the null document is skipped with
no tally change. -/
theorem C10_witness :
    (ConfigFile.mk "w/config.yaml" "" (.value .nullV)).parsed =
      .value .nullV ∧
    processFile (fun _ => .ok (some "1.2.0"))
        ⟨"w/config.yaml", "", .value .nullV⟩ =
      (0, 0, ⟨"w/config.yaml", "", .value .nullV⟩) :=
  ⟨rfl,
    (C10_null_document_skipped (fun _ => .ok (some "1.2.0")) _ [] rfl).1⟩
